import Mathlib

/-!
Formal model of `src/helpers/requestHelpers.ts`: four factory functions that
build signal-coordination patterns for a deterministic, single-threaded,
cooperatively scheduled workflow host (Temporal).

Embedding style: each pattern invocation is a state machine driven by an
explicit event trace.

* A signal-delivery event runs exactly the registered handler's body,
  synchronously and atomically (the host guarantees handlers interleave with
  the main body only at suspension points).
* A `resolve` event models the awaited external activity completing; it also
  runs the body's continuation up to the next suspension point or return,
  exactly as the source continues after `await startActivity(...)`.
* A `wake` event models the host resuming the body at a `condition(...)`
  suspension point; it is a no-op unless the awaited predicate holds.

Separating signal delivery from `wake` is essential: several signals can be
delivered in one workflow task before the body's suspension resumes, which is
the situation the overwrite property of the iterative loop is about.

Callback invocations (`onProgress`, `onStarted`, `onSubmission`) are recorded
as ghost observation logs (`List` fields) so that theorems can speak about how
often and in what order callbacks fired; the logs influence nothing else.
-/

namespace RequestHelpers

/-! ### (1) createSyncWaitRequest

Source:
```
return async function syncWait(...args: Args): Promise<T> {
  return await activityFn(...args);
};
```
The activity is modelled as a fallible function into `Except E T`; `syncWait`
forwards its outcome unchanged. -/

/-- Body of `syncWait`: one awaited call of `activityFn`, whose outcome
(success or failure) is returned as-is. -/
def syncWait {T E : Type} {Args : Type} (activityFn : Args → Except E T)
    (args : Args) : Except E T :=
  activityFn args

/-- Events that can reach a `syncWait` invocation: the activity settling, or a
signal delivery. `syncWait` registers no handler, so the state carries the
registration count (always zero in the source body) to state that fact. -/
inductive SWEvent (T E Sig : Type) where
  | resolve (r : Except E T)
  | signal (x : Sig)

/-- Per-invocation state of `syncWait`. `handlersRegistered` counts
`setHandler` calls made by the body — the source body makes none. -/
structure SWState (T E : Type) where
  result : Option (Except E T)
  handlersRegistered : Nat

def SWinit {T E : Type} : SWState T E :=
  { result := none, handlersRegistered := 0 }

/-- One event against a `syncWait` invocation. No handler is registered, so a
signal delivery cannot affect the invocation's state; a resolve settles the
result. -/
def SWstep {T E Sig : Type} (e : SWEvent T E Sig) (s : SWState T E) :
    SWState T E :=
  match e with
  | .resolve r => if s.result.isNone then { s with result := some r } else s
  | .signal _ => s

def SWrun {T E Sig : Type} (tr : List (SWEvent T E Sig)) : SWState T E :=
  tr.foldl (fun s e => SWstep e s) SWinit

/-! ### (2) createWaitForDoneRequest

Source body (`waitForDone`):
```
let isDone = false;
setHandler(doneSignalDef, () => { isDone = true; });
const result = await startActivity(...activityArgs);
await condition(() => isDone);
return result;
```
The handler takes no parameter, so the completion signal's `Final` payload is
discarded at the handler boundary. -/

inductive WFDEvent (T Final : Type) where
  | resolve (t : T)
  | done (f : Final)
  | wake
  deriving DecidableEq

/-- Where the `waitForDone` body is suspended: at `await startActivity`, at
`await condition(() => isDone)`, or already returned. -/
inductive WFDPhase where
  | awaitingStart
  | awaitingDone
  | returned
  deriving DecidableEq

/-- Per-invocation state of `waitForDone`. `startCalls` counts invocations of
`startActivity` (made once, synchronously, before the first suspension);
`result` is the value the body will return once the completion flag allows. -/
structure WFDState (T Final : Type) where
  isDone : Bool
  result : Option T
  phase : WFDPhase
  startCalls : Nat
  deriving DecidableEq

/-- Initial state: the handler is registered and `startActivity` has been
called (both happen before the body's first suspension point). -/
def WFDinit {T Final : Type} : WFDState T Final :=
  { isDone := false, result := none, phase := .awaitingStart, startCalls := 1 }

/-- One event against a `waitForDone` invocation.

* `done f`: the handler body `() => { isDone = true; }` — the payload `f` is
  not bound by the handler and cannot influence anything.
* `resolve t`: only meaningful while the body awaits `startActivity`; the body
  stores `result = t` and reaches `condition(() => isDone)`, which returns
  immediately when `isDone` already holds, else suspends.
* `wake`: resumes the `condition` suspension when its predicate holds. -/
def WFDstep {T Final : Type} (e : WFDEvent T Final) (s : WFDState T Final) :
    WFDState T Final :=
  match e with
  | .done _ => { s with isDone := true }
  | .resolve t =>
      if s.phase = .awaitingStart then
        if s.isDone then
          { s with result := some t, phase := .returned }
        else
          { s with result := some t, phase := .awaitingDone }
      else s
  | .wake =>
      if s.phase = .awaitingDone ∧ s.isDone = true then
        { s with phase := .returned }
      else s

def WFDrun {T Final : Type} (tr : List (WFDEvent T Final)) : WFDState T Final :=
  tr.foldl (fun s e => WFDstep e s) WFDinit

/-! ### (3) createIterativeLoopRequest

Source body (`iterativeLoop`):
```
let isDone = false;
let lastSubmission: Submission | undefined;
setHandler(finishSignalDef, () => { isDone = true; });
setHandler(submissionSignalDef, (sub) => {
  lastSubmission = sub;
  if (onSubmission) { onSubmission(sub); }
});
while (!isDone) {
  await condition(() => lastSubmission !== undefined || isDone);
  if (isDone) break;
  lastSubmission = undefined;
}
```
The finish handler ignores its `Final` payload. The submission handler has no
`isDone` guard: it always stores the payload and always calls `onSubmission`. -/

inductive ILEvent (Submission Final : Type) where
  | submit (sub : Submission)
  | finish (f : Final)
  | wake
  deriving DecidableEq

/-- Per-invocation state of `iterativeLoop`. `submissionCalls` is the ghost
log of `onSubmission` invocations, in order; `consumed` is the ghost log of
the pending payloads the loop body observed (and cleared) at its wake-ups;
`returned` says the `while` loop has exited. -/
structure ILState (Submission : Type) where
  isDone : Bool
  lastSubmission : Option Submission
  submissionCalls : List Submission
  consumed : List Submission
  returned : Bool
  deriving DecidableEq

/-- Initial state: both handlers registered; the body has entered the loop
(`isDone` is false) and suspended on `condition(...)`, whose predicate
`lastSubmission !== undefined || isDone` is initially false. -/
def ILinit {Submission : Type} : ILState Submission :=
  { isDone := false, lastSubmission := none, submissionCalls := []
    consumed := [], returned := false }

/-- One event against an `iterativeLoop` invocation.

* `finish f`: handler `() => { isDone = true; }`; the payload is unused.
* `submit sub`: handler stores `lastSubmission = sub` (overwriting any
  not-yet-consumed payload) and invokes `onSubmission(sub)`, unconditionally.
* `wake`: resumes the loop's `condition` suspension when the predicate
  `lastSubmission ≠ none ∨ isDone` holds; the body then checks `isDone`
  first (break) and otherwise clears the pending payload and loops back to
  the same suspension (the re-checked predicate is false again). -/
def ILstep {Submission Final : Type} (e : ILEvent Submission Final)
    (s : ILState Submission) : ILState Submission :=
  match e with
  | .finish _ => { s with isDone := true }
  | .submit sub =>
      { s with lastSubmission := some sub
               submissionCalls := s.submissionCalls ++ [sub] }
  | .wake =>
      if s.returned then s
      else if s.isDone then { s with returned := true }
      else
        match s.lastSubmission with
        | some sub =>
            { s with lastSubmission := none, consumed := s.consumed ++ [sub] }
        | none => s

def ILrun {Submission Final : Type} (tr : List (ILEvent Submission Final)) :
    ILState Submission :=
  tr.foldl (fun s e => ILstep e s) ILinit

/-! ### (6) createProgressReportingRequest

Source body (`progressRequest`):
```
let isDone = false;
let finalData: Final | undefined;
setHandler(updateSignalDef, (progressValue: Progress) => {
  if(!isDone) onProgress?.(progressValue);
});
setHandler(completeSignalDef, (finalVal: Final) => {
  if(!isDone) { finalData = finalVal; isDone = true; }
});
const activityResult: AResult = await startLongJobActivity(...activityArgs);
if (onStarted) { onStarted(activityResult); }
await condition(() => isDone);
return finalData!;
```
-/

inductive PREvent (AResult Progress Final : Type) where
  | resolve (a : AResult)
  | progress (p : Progress)
  | complete (f : Final)
  | wake
  deriving DecidableEq

/-- Where the `progressRequest` body is suspended. -/
inductive PRPhase where
  | awaitingStart
  | awaitingDone
  | returned
  deriving DecidableEq

/-- Per-invocation state of `progressRequest`. `progressCalls` and
`startedCalls` are ghost logs of the `onProgress` / `onStarted` invocations,
in order. `finalData` is the stored completion payload, returned (via the
non-null assertion `finalData!`) when the body resumes after `isDone`. -/
structure PRState (AResult Progress Final : Type) where
  isDone : Bool
  finalData : Option Final
  phase : PRPhase
  startedCalls : List AResult
  progressCalls : List Progress
  deriving DecidableEq

/-- Initial state: both handlers are registered before the activity is
awaited; the body is suspended on `await startLongJobActivity(...)`. -/
def PRinit {AResult Progress Final : Type} : PRState AResult Progress Final :=
  { isDone := false, finalData := none, phase := .awaitingStart
    startedCalls := [], progressCalls := [] }

/-- One event against a `progressRequest` invocation.

* `progress p`: handler body `if(!isDone) onProgress?.(p)` — a callback call
  guarded by the completion flag, no stored state.
* `complete f`: handler body `if(!isDone) { finalData = f; isDone = true; }`
  — first delivery wins, later ones are ignored.
* `resolve a`: the activity settles; the body records `onStarted(a)` and
  reaches `condition(() => isDone)`, which returns immediately when `isDone`
  already holds, else suspends.
* `wake`: resumes that suspension once `isDone` holds. -/
def PRstep {AResult Progress Final : Type}
    (e : PREvent AResult Progress Final)
    (s : PRState AResult Progress Final) : PRState AResult Progress Final :=
  match e with
  | .progress p =>
      if s.isDone then s
      else { s with progressCalls := s.progressCalls ++ [p] }
  | .complete f =>
      if s.isDone then s
      else { s with finalData := some f, isDone := true }
  | .resolve a =>
      if s.phase = .awaitingStart then
        if s.isDone then
          { s with startedCalls := s.startedCalls ++ [a], phase := .returned }
        else
          { s with startedCalls := s.startedCalls ++ [a], phase := .awaitingDone }
      else s
  | .wake =>
      if s.phase = .awaitingDone ∧ s.isDone = true then
        { s with phase := .returned }
      else s

def PRrun {AResult Progress Final : Type}
    (tr : List (PREvent AResult Progress Final)) : PRState AResult Progress Final :=
  tr.foldl (fun s e => PRstep e s) PRinit

/-- The `Final` payloads of the completion signals in a trace, in delivery
order. -/
def PRcompletes {AResult Progress Final : Type}
    (tr : List (PREvent AResult Progress Final)) : List Final :=
  tr.filterMap fun e =>
    match e with
    | .complete f => some f
    | _ => none

/-! ## Helper lemmas -/

/-- A property preserved by every step holds after folding a whole trace. -/
lemma foldl_inv {α β : Type} {f : β → α → β} {P : β → Prop}
    (h : ∀ b a, P b → P (f b a)) :
    ∀ (l : List α) (b : β), P b → P (l.foldl f b) := by
  intro l
  induction l with
  | nil => intro b hb; simpa using hb
  | cons a l ih =>
      intro b hb
      simpa using ih _ (h b a hb)

/-- No event changes `syncWait`'s handler-registration count. -/
lemma SWstep_handlers {T E Sig : Type} (e : SWEvent T E Sig) (s : SWState T E) :
    (SWstep e s).handlersRegistered = s.handlersRegistered := by
  cases e with
  | resolve r => simp only [SWstep]; split <;> rfl
  | signal x => rfl

/-- `waitForDone` never touches `startCalls` after initialization. -/
lemma WFDstep_startCalls {T Final : Type} (e : WFDEvent T Final)
    (s : WFDState T Final) : (WFDstep e s).startCalls = s.startCalls := by
  cases e <;> simp only [WFDstep] <;> split <;> try split
  all_goals rfl

/-- Running one more event on the end of a trace. -/
lemma WFDrun_append_one {T Final : Type} (l : List (WFDEvent T Final))
    (e : WFDEvent T Final) : WFDrun (l ++ [e]) = WFDstep e (WFDrun l) := by
  simp [WFDrun, List.foldl_append]

/-- Reachability invariant of `waitForDone`: a stored result certifies a
resolve event, a set completion flag certifies a done event, a body past its
first suspension has a stored result, and a returned body has its flag set. -/
lemma WFDrun_inv {T Final : Type} (tr : List (WFDEvent T Final)) :
    ((WFDrun tr).result.isSome = true → ∃ t, WFDEvent.resolve t ∈ tr) ∧
    ((WFDrun tr).isDone = true → ∃ f, WFDEvent.done f ∈ tr) ∧
    ((WFDrun tr).phase ≠ WFDPhase.awaitingStart → (WFDrun tr).result.isSome = true) ∧
    ((WFDrun tr).phase = WFDPhase.returned → (WFDrun tr).isDone = true) := by
  induction tr using List.reverseRecOn with
  | nil => simp [WFDrun, WFDinit]
  | append_singleton l e ih =>
    obtain ⟨ih1, ih2, ih3, ih4⟩ := ih
    rw [WFDrun_append_one]
    have hmem1 : ∀ u : T, WFDEvent.resolve u ∈ l →
        WFDEvent.resolve u ∈ l ++ [e] := fun u hu => by simp [hu]
    have hmem2 : ∀ g : Final, (WFDEvent.done g : WFDEvent T Final) ∈ l →
        WFDEvent.done g ∈ l ++ [e] := fun g hg => by simp [hg]
    cases e with
    | done f =>
      exact ⟨fun h => Exists.imp (fun u hu => hmem1 u hu) (ih1 h),
        fun _ => ⟨f, by simp⟩, fun h => ih3 h, fun _ => rfl⟩
    | resolve t =>
      by_cases hp : (WFDrun l).phase = WFDPhase.awaitingStart
      · by_cases hd : (WFDrun l).isDone = true
        · have hstep : WFDstep (WFDEvent.resolve t) (WFDrun l)
              = { WFDrun l with result := some t, phase := WFDPhase.returned } := by
            simp [WFDstep, hp, hd]
          rw [hstep]
          exact ⟨fun _ => ⟨t, by simp⟩,
            fun _ => Exists.imp (fun g hg => hmem2 g hg) (ih2 hd),
            fun _ => rfl, fun _ => hd⟩
        · have hstep : WFDstep (WFDEvent.resolve t) (WFDrun l)
              = { WFDrun l with result := some t, phase := WFDPhase.awaitingDone } := by
            simp [WFDstep, hp, hd]
          rw [hstep]
          exact ⟨fun _ => ⟨t, by simp⟩,
            fun h => Exists.imp (fun g hg => hmem2 g hg) (ih2 h),
            fun _ => rfl, fun h => WFDPhase.noConfusion h⟩
      · have hstep : WFDstep (WFDEvent.resolve t) (WFDrun l) = WFDrun l := by
          simp [WFDstep, hp]
        rw [hstep]
        exact ⟨fun h => Exists.imp (fun u hu => hmem1 u hu) (ih1 h),
          fun h => Exists.imp (fun g hg => hmem2 g hg) (ih2 h), ih3, ih4⟩
    | wake =>
      by_cases hc : (WFDrun l).phase = WFDPhase.awaitingDone ∧ (WFDrun l).isDone = true
      · have hstep : WFDstep WFDEvent.wake (WFDrun l)
            = { WFDrun l with phase := WFDPhase.returned } := by
          simp [WFDstep, hc]
        rw [hstep]
        exact ⟨fun h => Exists.imp (fun u hu => hmem1 u hu) (ih1 h),
          fun h => Exists.imp (fun g hg => hmem2 g hg) (ih2 h),
          fun _ => ih3 (by simp [hc.1]), fun _ => hc.2⟩
      · have hstep : WFDstep WFDEvent.wake (WFDrun l) = WFDrun l := by
          simp [WFDstep, hc]
        rw [hstep]
        exact ⟨fun h => Exists.imp (fun u hu => hmem1 u hu) (ih1 h),
          fun h => Exists.imp (fun g hg => hmem2 g hg) (ih2 h), ih3, ih4⟩

/-! ## Claim theorems -/

/-- Claim C1: in the Await-completion pattern (`createWaitForDoneRequest`),
for every activity result `t` and every completion-signal payload `f`, the
invocation returns the activity's result `t` — whether the signal arrives
after the activity resolves or before it — and the completion handler's
effect is independent of the signal's payload, which is discarded. -/
theorem awaitCompletion_returns_activity_result {T Final : Type} :
    (∀ (t : T) (f : Final),
      (WFDrun [WFDEvent.resolve t, WFDEvent.done f, WFDEvent.wake]).result = some t ∧
      (WFDrun [WFDEvent.resolve t, WFDEvent.done f, WFDEvent.wake]).phase = WFDPhase.returned) ∧
    (∀ (t : T) (f : Final),
      (WFDrun [WFDEvent.done f, WFDEvent.resolve t]).result = some t ∧
      (WFDrun [WFDEvent.done f, WFDEvent.resolve t]).phase = WFDPhase.returned) ∧
    (∀ (s : WFDState T Final) (f g : Final),
      WFDstep (WFDEvent.done f) s = WFDstep (WFDEvent.done g) s) := by
  refine ⟨fun t f => ⟨rfl, rfl⟩, fun t f => ⟨rfl, rfl⟩, fun s f g => rfl⟩

/-- Claim C4: in the Iterative-submission-loop pattern, delivering `s1` then
`s2` before the loop body consumes `s1` invokes `onSubmission` for both, in
order, but the pending slot holds only `s2`; at the loop's next wake the body
consumes exactly `s2`, so the overwritten `s1` is never observed by the loop
body. -/
theorem iterativeLoop_overwrite_property {Submission Final : Type} :
    ∀ (s1 s2 : Submission),
      (ILrun ([ILEvent.submit s1, ILEvent.submit s2] :
          List (ILEvent Submission Final))).submissionCalls = [s1, s2] ∧
      (ILrun ([ILEvent.submit s1, ILEvent.submit s2] :
          List (ILEvent Submission Final))).lastSubmission = some s2 ∧
      (ILrun ([ILEvent.submit s1, ILEvent.submit s2, ILEvent.wake] :
          List (ILEvent Submission Final))).consumed = [s2] ∧
      (ILrun ([ILEvent.submit s1, ILEvent.submit s2, ILEvent.wake] :
          List (ILEvent Submission Final))).lastSubmission = none := by
  intro s1 s2
  exact ⟨rfl, rfl, rfl, rfl⟩

/-- Claim C8: the Synchronous-call pattern (`createSyncWaitRequest`) returns
exactly what the wrapped operation returns, propagates its failures
unchanged, and registers no signal handlers (a signal delivery cannot affect
the invocation). -/
theorem syncWait_passthrough {T E Args Sig : Type} :
    (∀ (fn : Args → Except E T) (args : Args), syncWait fn args = fn args) ∧
    (∀ (fn : Args → Except E T) (args : Args) (e : E),
      fn args = Except.error e → syncWait fn args = Except.error e) ∧
    (∀ (s : SWState T E) (x : Sig), SWstep (SWEvent.signal x) s = s) ∧
    (∀ (tr : List (SWEvent T E Sig)), (SWrun tr).handlersRegistered = 0) ∧
    (∀ (r : Except E T) (x y : Sig),
      (SWrun [SWEvent.signal x, SWEvent.resolve r, SWEvent.signal y]).result = some r) := by
  refine ⟨fun fn args => rfl, fun fn args e h => h, fun s x => rfl, ?_, fun r x y => rfl⟩
  intro tr
  show (tr.foldl (fun s e => SWstep e s) SWinit).handlersRegistered = 0
  exact @foldl_inv (SWEvent T E Sig) (SWState T E) (fun s e => SWstep e s)
    (fun s => s.handlersRegistered = 0)
    (fun b a hb => (SWstep_handlers a b).trans hb) tr SWinit rfl

/-- Witness for C8: the error-propagation conjunct at a concrete failing
operation. -/
theorem syncWait_passthrough_witness :
    syncWait (fun _ : Nat => (Except.error 3 : Except Nat Nat)) 0 = Except.error 3 :=
  (@syncWait_passthrough Nat Nat Nat Nat).2.1 (fun _ => Except.error 3) 0 3 rfl

/-- Claim C6: in the Await-completion pattern, the activity is started
exactly once (before any suspension), the completion handler is registered
before the body awaits the activity — so a completion signal delivered before
the activity resolves is still observed and the invocation completes — and
the invocation returns only after both the resolve event and a completion
delivery have occurred. -/
theorem awaitCompletion_start_once_and_no_missed_signal {T Final : Type} :
    (∀ tr : List (WFDEvent T Final), (WFDrun tr).startCalls = 1) ∧
    (∀ (t : T) (f : Final),
      (WFDrun [WFDEvent.done f, WFDEvent.resolve t]).phase = WFDPhase.returned ∧
      (WFDrun [WFDEvent.done f, WFDEvent.resolve t]).result = some t) ∧
    (∀ tr : List (WFDEvent T Final), (WFDrun tr).phase = WFDPhase.returned →
      (∃ t, WFDEvent.resolve t ∈ tr) ∧ (∃ f, WFDEvent.done f ∈ tr)) := by
  refine ⟨?_, fun t f => ⟨rfl, rfl⟩, ?_⟩
  · intro tr
    show (tr.foldl (fun s e => WFDstep e s) WFDinit).startCalls = 1
    exact @foldl_inv (WFDEvent T Final) (WFDState T Final)
      (fun s e => WFDstep e s) (fun s => s.startCalls = 1)
      (fun b a hb => (WFDstep_startCalls a b).trans hb) tr WFDinit rfl
  · intro tr h
    obtain ⟨inv1, inv2, inv3, inv4⟩ := WFDrun_inv tr
    exact ⟨inv1 (inv3 (by simp [h])), inv2 (inv4 h)⟩

/-- Witness for C6: the return-only-after-both-events conjunct at a concrete
completed trace. -/
theorem awaitCompletion_start_once_and_no_missed_signal_witness :
    (∃ t, WFDEvent.resolve t ∈
        ([WFDEvent.done 5, WFDEvent.resolve 7] : List (WFDEvent Nat Nat))) ∧
    (∃ f, WFDEvent.done f ∈
        ([WFDEvent.done 5, WFDEvent.resolve 7] : List (WFDEvent Nat Nat))) :=
  (@awaitCompletion_start_once_and_no_missed_signal Nat Nat).2.2
    [WFDEvent.done 5, WFDEvent.resolve 7] rfl

/-- Claim C5: in both the Await-completion and Progress-and-final patterns,
the completion flag is monotone (it moves false→true at most once); once it
is set, delivering the completion signal again leaves the invocation state
unchanged, so the eventually returned value is unchanged and no
completion-tied effect recurs (first-writer-wins on the stored payload). -/
theorem completion_flag_first_writer_wins {T Final AResult Progress : Type} :
    (∀ (s : WFDState T Final) (e : WFDEvent T Final),
      s.isDone = true → (WFDstep e s).isDone = true) ∧
    (∀ (s : WFDState T Final) (f : Final),
      s.isDone = true → WFDstep (WFDEvent.done f) s = s) ∧
    (∀ (s : WFDState T Final) (f : Final) (tr : List (WFDEvent T Final)),
      s.isDone = true →
      tr.foldl (fun s e => WFDstep e s) (WFDstep (WFDEvent.done f) s)
        = tr.foldl (fun s e => WFDstep e s) s) ∧
    (∀ (s : PRState AResult Progress Final) (e : PREvent AResult Progress Final),
      s.isDone = true → (PRstep e s).isDone = true) ∧
    (∀ (s : PRState AResult Progress Final) (f : Final),
      s.isDone = true → PRstep (PREvent.complete f) s = s) ∧
    (∀ (s : PRState AResult Progress Final) (f : Final)
        (tr : List (PREvent AResult Progress Final)),
      s.isDone = true →
      tr.foldl (fun s e => PRstep e s) (PRstep (PREvent.complete f) s)
        = tr.foldl (fun s e => PRstep e s) s) := by
  have hwd : ∀ (s : WFDState T Final) (f : Final),
      s.isDone = true → WFDstep (WFDEvent.done f) s = s := by
    intro s f h
    cases s
    simp only [WFDstep]
    simp_all
  have hpr : ∀ (s : PRState AResult Progress Final) (f : Final),
      s.isDone = true → PRstep (PREvent.complete f) s = s := by
    intro s f h
    simp [PRstep, h]
  refine ⟨?_, hwd, fun s f tr h => by rw [hwd s f h], ?_, hpr,
    fun s f tr h => by rw [hpr s f h]⟩
  · intro s e h
    cases e <;> simp only [WFDstep] <;> split_ifs <;> simp_all
  · intro s e h
    cases e <;> simp only [PRstep] <;> split_ifs <;> simp_all

/-- Witness for C5: a second completion delivery is a no-op on a concrete
already-completed state of each pattern. -/
theorem completion_flag_first_writer_wins_witness :
    WFDstep (WFDEvent.done 3)
        ({ isDone := true, result := some 7, phase := WFDPhase.returned,
           startCalls := 1 } : WFDState Nat Nat)
      = { isDone := true, result := some 7, phase := WFDPhase.returned,
          startCalls := 1 } ∧
    PRstep (PREvent.complete 9)
        ({ isDone := true, finalData := some 4, phase := PRPhase.returned,
           startedCalls := [1], progressCalls := [2] } : PRState Nat Nat Nat)
      = { isDone := true, finalData := some 4, phase := PRPhase.returned,
          startedCalls := [1], progressCalls := [2] } :=
  ⟨(@completion_flag_first_writer_wins Nat Nat Nat Nat).2.1 _ 3 rfl,
   (@completion_flag_first_writer_wins Nat Nat Nat Nat).2.2.2.2.1 _ 9 rfl⟩

/-- Running one more event on the end of a `progressRequest` trace. -/
lemma PRrun_append_one {AResult Progress Final : Type}
    (l : List (PREvent AResult Progress Final))
    (e : PREvent AResult Progress Final) :
    PRrun (l ++ [e]) = PRstep e (PRrun l) := by
  simp [PRrun, List.foldl_append]

/-- Folding a block of progress deliveries over a not-yet-completed state
appends exactly those payloads to the `onProgress` call log. -/
lemma PR_fold_progress {AResult Progress Final : Type} :
    ∀ (ps : List Progress) (s : PRState AResult Progress Final),
      s.isDone = false →
      (ps.map PREvent.progress).foldl (fun s e => PRstep e s) s
        = { s with progressCalls := s.progressCalls ++ ps } := by
  intro ps
  induction ps with
  | nil => intro s _; simp
  | cons p ps ih =>
      intro s h
      have hstep : PRstep (PREvent.progress p) s
          = { s with progressCalls := s.progressCalls ++ [p] } := by
        simp [PRstep, h]
      simp only [List.map_cons, List.foldl_cons, hstep]
      rw [ih _ (by simp [h])]
      simp

/-- Trace-level characterization of `progressRequest`'s completion handling:
the stored payload is exactly the first completion delivery of the trace, the
flag is set exactly when some completion was delivered, and a returned body
has its flag set. -/
lemma PRrun_inv {AResult Progress Final : Type}
    (tr : List (PREvent AResult Progress Final)) :
    (PRrun tr).finalData = (PRcompletes tr).head? ∧
    ((PRrun tr).isDone = true ↔ PRcompletes tr ≠ []) ∧
    ((PRrun tr).phase = PRPhase.returned → (PRrun tr).isDone = true) := by
  induction tr using List.reverseRecOn with
  | nil => simp [PRrun, PRinit, PRcompletes]
  | append_singleton l e ih =>
    obtain ⟨ih1, ih2, ih3⟩ := ih
    rw [PRrun_append_one]
    cases e with
    | progress p =>
      have hc : PRcompletes (l ++ [PREvent.progress p]) = PRcompletes l := by
        simp [PRcompletes]
      rw [hc]
      by_cases h : (PRrun l).isDone = true
      · have hstep : PRstep (PREvent.progress p) (PRrun l) = PRrun l := by
          simp [PRstep, h]
        rw [hstep]; exact ⟨ih1, ih2, ih3⟩
      · have hstep : PRstep (PREvent.progress p) (PRrun l)
            = { PRrun l with progressCalls := (PRrun l).progressCalls ++ [p] } := by
          simp [PRstep, h]
        rw [hstep]
        exact ⟨ih1, ih2, ih3⟩
    | complete f =>
      have hc : PRcompletes (l ++ [PREvent.complete f])
          = PRcompletes l ++ [f] := by
        simp [PRcompletes]
      rw [hc]
      by_cases h : (PRrun l).isDone = true
      · have hne : PRcompletes l ≠ [] := ih2.mp h
        have hstep : PRstep (PREvent.complete f) (PRrun l) = PRrun l := by
          simp [PRstep, h]
        rw [hstep]
        refine ⟨?_, ?_, ih3⟩
        · rw [ih1]
          cases hcl : PRcompletes l with
          | nil => exact absurd hcl hne
          | cons x xs => simp
        · simp [h]
      · have hnil : PRcompletes l = [] := by
          by_contra hne
          exact h (ih2.mpr hne)
        have hstep : PRstep (PREvent.complete f) (PRrun l)
            = { PRrun l with finalData := some f, isDone := true } := by
          simp [PRstep, h]
        rw [hstep, hnil]
        exact ⟨by simp, by simp, fun _ => rfl⟩
    | resolve a =>
      have hc : PRcompletes (l ++ [PREvent.resolve a]) = PRcompletes l := by
        simp [PRcompletes]
      rw [hc]
      by_cases hp : (PRrun l).phase = PRPhase.awaitingStart
      · by_cases h : (PRrun l).isDone = true
        · have hstep : PRstep (PREvent.resolve a) (PRrun l)
              = { PRrun l with
                  startedCalls := (PRrun l).startedCalls ++ [a]
                  phase := PRPhase.returned } := by
            simp [PRstep, hp, h]
          rw [hstep]
          exact ⟨ih1, ih2, fun _ => h⟩
        · have hstep : PRstep (PREvent.resolve a) (PRrun l)
              = { PRrun l with
                  startedCalls := (PRrun l).startedCalls ++ [a]
                  phase := PRPhase.awaitingDone } := by
            simp [PRstep, hp, h]
          rw [hstep]
          exact ⟨ih1, ih2, fun hr => PRPhase.noConfusion hr⟩
      · have hstep : PRstep (PREvent.resolve a) (PRrun l) = PRrun l := by
          simp [PRstep, hp]
        rw [hstep]
        exact ⟨ih1, ih2, ih3⟩
    | wake =>
      have hc : PRcompletes (l ++ [PREvent.wake]) = PRcompletes l := by
        simp [PRcompletes]
      rw [hc]
      by_cases hw : (PRrun l).phase = PRPhase.awaitingDone ∧ (PRrun l).isDone = true
      · have hstep : PRstep PREvent.wake (PRrun l)
            = { PRrun l with phase := PRPhase.returned } := by
          simp [PRstep, hw]
        rw [hstep]
        exact ⟨ih1, ih2, fun _ => hw.2⟩
      · have hstep : PRstep PREvent.wake (PRrun l) = PRrun l := by
          simp [PRstep, hw]
        rw [hstep]
        exact ⟨ih1, ih2, ih3⟩

/-- Claim C2: in the Progress-and-final pattern, delivering progress signals
`p1...pk` and then a completion signal `f` makes the invocation return `f`'s
payload with `onProgress` invoked exactly `k` times in delivery order, and a
completion signal delivered before the start activity resolves is still
honored, because the completion handler is registered before the body awaits
the activity. -/
theorem progressAndFinal_progress_then_complete {AResult Progress Final : Type} :
    (∀ (a : AResult) (ps : List Progress) (f : Final),
      PRrun (PREvent.resolve a ::
          (ps.map PREvent.progress ++ [PREvent.complete f, PREvent.wake]))
        = { isDone := true, finalData := some f, phase := PRPhase.returned,
            startedCalls := [a], progressCalls := ps }) ∧
    (∀ (a : AResult) (f : Final),
      (PRrun ([PREvent.complete f, PREvent.resolve a] :
          List (PREvent AResult Progress Final))).phase = PRPhase.returned ∧
      (PRrun ([PREvent.complete f, PREvent.resolve a] :
          List (PREvent AResult Progress Final))).finalData = some f ∧
      (PRrun ([PREvent.complete f, PREvent.resolve a] :
          List (PREvent AResult Progress Final))).progressCalls = []) := by
  constructor
  · intro a ps f
    show ((PREvent.resolve a ::
        (ps.map PREvent.progress ++ [PREvent.complete f, PREvent.wake])).foldl
        (fun s e => PRstep e s) PRinit) = _
    rw [List.foldl_cons, List.foldl_append]
    rw [show PRstep (PREvent.resolve a) (PRinit : PRState AResult Progress Final)
        = ⟨false, none, PRPhase.awaitingDone, [a], []⟩ from by simp [PRstep, PRinit]]
    rw [PR_fold_progress ps _ rfl]
    simp [PRstep]
  · intro a f
    exact ⟨rfl, rfl, rfl⟩

/-- Claim C7: in the Progress-and-final pattern, `onProgress` fires once per
progress delivery, in order, whether the delivery lands before or after the
activity resolves — but a progress delivery after the completion flag is set
is dropped whole by the handler's guard and changes nothing. -/
theorem progress_callback_only_before_completion {AResult Progress Final : Type} :
    (∀ (s : PRState AResult Progress Final) (p : Progress),
      s.isDone = true → PRstep (PREvent.progress p) s = s) ∧
    (∀ (ps1 ps2 : List Progress) (a : AResult),
      (PRrun ((ps1.map PREvent.progress ++ [PREvent.resolve a] ++
            ps2.map PREvent.progress) :
          List (PREvent AResult Progress Final))).progressCalls = ps1 ++ ps2) ∧
    (∀ (a : AResult) (f : Final),
      (PRrun [PREvent.resolve a, PREvent.complete f, PREvent.wake]).progressCalls
        = ([] : List Progress)) := by
  refine ⟨fun s p h => by simp [PRstep, h], ?_, fun a f => rfl⟩
  intro ps1 ps2 a
  show (((ps1.map PREvent.progress ++ [PREvent.resolve a]) ++
      ps2.map PREvent.progress).foldl (fun s e => PRstep e s) PRinit).progressCalls = _
  rw [List.foldl_append, List.foldl_append]
  rw [PR_fold_progress ps1 (PRinit : PRState AResult Progress Final) rfl]
  rw [show (List.foldl (fun s e => PRstep e s)
        ({ (PRinit : PRState AResult Progress Final) with
           progressCalls := PRinit.progressCalls ++ ps1 }) [PREvent.resolve a])
      = ⟨false, none, PRPhase.awaitingDone, [a], ps1⟩ from by simp [PRstep, PRinit]]
  rw [PR_fold_progress ps2 _ rfl]

/-- Witness for C7: a progress delivery on a concrete completed state is a
no-op. -/
theorem progress_callback_only_before_completion_witness :
    PRstep (PREvent.progress 8)
        ({ isDone := true, finalData := some 4, phase := PRPhase.returned,
           startedCalls := [1], progressCalls := [2] } : PRState Nat Nat Nat)
      = { isDone := true, finalData := some 4, phase := PRPhase.returned,
          startedCalls := [1], progressCalls := [2] } :=
  (@progress_callback_only_before_completion Nat Nat Nat).1 _ 8 rfl

/-- Claim C9: the non-null assertion `finalData!` at `progressRequest`'s
return is safe: the stored payload is exactly the first completion delivery
of the trace, and whenever the body has returned, the completion flag is set
and the stored payload is defined. -/
theorem progressAndFinal_nonnull_assertion_safe {AResult Progress Final : Type} :
    (∀ tr : List (PREvent AResult Progress Final),
      (PRrun tr).finalData = (PRcompletes tr).head?) ∧
    (∀ tr : List (PREvent AResult Progress Final),
      (PRrun tr).phase = PRPhase.returned → (PRrun tr).finalData.isSome = true) := by
  refine ⟨fun tr => (PRrun_inv tr).1, fun tr h => ?_⟩
  obtain ⟨h1, h2, h3⟩ := PRrun_inv tr
  have hne := h2.mp (h3 h)
  rw [h1]
  cases hcl : PRcompletes tr with
  | nil => exact absurd hcl hne
  | cons x xs => simp

/-- Witness for C9: the defined-on-return conjunct at a concrete trace whose
completion arrives before the activity resolves. -/
theorem progressAndFinal_nonnull_assertion_safe_witness :
    (PRrun ([PREvent.complete 5, PREvent.resolve 1] :
        List (PREvent Nat Nat Nat))).finalData.isSome = true :=
  (@progressAndFinal_nonnull_assertion_safe Nat Nat Nat).2
    [PREvent.complete 5, PREvent.resolve 1] rfl

/-- The canonical loop interaction: each submission delivery followed by a
wake of the loop body, which consumes it. -/
def ILsubTrace {Submission Final : Type} :
    List Submission → List (ILEvent Submission Final)
  | [] => []
  | x :: ss => ILEvent.submit x :: ILEvent.wake :: ILsubTrace ss

/-- Folding submit-then-wake pairs over a live loop state logs one
`onSubmission` call per submission, in order, and the loop body consumes each
payload, ending with an empty pending slot and the loop still running. -/
lemma IL_fold_sub {Submission Final : Type} :
    ∀ (ss : List Submission) (s : ILState Submission),
      s.isDone = false → s.returned = false → s.lastSubmission = none →
      ((ILsubTrace ss : List (ILEvent Submission Final)).foldl
          (fun s e => ILstep e s) s)
        = { s with
            submissionCalls := s.submissionCalls ++ ss
            consumed := s.consumed ++ ss } := by
  intro ss
  induction ss with
  | nil =>
      intro s h1 h2 h3
      simp [ILsubTrace]
  | cons x ss ih =>
      intro s h1 h2 h3
      have hs1 : ILstep (ILEvent.submit x : ILEvent Submission Final) s
          = { s with
              lastSubmission := some x
              submissionCalls := s.submissionCalls ++ [x] } := rfl
      have hs2 : ILstep (ILEvent.wake : ILEvent Submission Final)
          { s with
            lastSubmission := some x
            submissionCalls := s.submissionCalls ++ [x] }
          = { s with
              lastSubmission := none
              submissionCalls := s.submissionCalls ++ [x]
              consumed := s.consumed ++ [x] } := by
        simp [ILstep, h1, h2]
      simp only [ILsubTrace, List.foldl_cons, hs1, hs2]
      have ih2 := ih { s with
          lastSubmission := none
          submissionCalls := s.submissionCalls ++ [x]
          consumed := s.consumed ++ [x] } h1 h2 rfl
      rw [ih2]
      simp [h3, List.append_assoc]

/-- As long as no finish signal is delivered, the loop's done flag stays
clear and the loop body has not returned. -/
lemma IL_nofinish_aux {Submission Final : Type} :
    ∀ (tr : List (ILEvent Submission Final)) (s : ILState Submission),
      (∀ f, ILEvent.finish f ∉ tr) → s.isDone = false → s.returned = false →
      ((tr.foldl (fun s e => ILstep e s) s).isDone = false ∧
       (tr.foldl (fun s e => ILstep e s) s).returned = false) := by
  intro tr
  induction tr with
  | nil => intro s _ h1 h2; exact ⟨h1, h2⟩
  | cons e tr ih =>
      intro s hnf h1 h2
      have hnf2 : ∀ f, ILEvent.finish f ∉ tr :=
        fun f hf => hnf f (List.mem_cons_of_mem _ hf)
      cases e with
      | submit x => exact ih _ hnf2 h1 h2
      | finish f => exact absurd (List.mem_cons_self _ _) (hnf f)
      | wake =>
          cases hls : s.lastSubmission with
          | none =>
              have hstep : ILstep (ILEvent.wake : ILEvent Submission Final) s = s := by
                simp [ILstep, h1, h2, hls]
              rw [List.foldl_cons, hstep]
              exact ih _ hnf2 h1 h2
          | some x =>
              have hstep : ILstep (ILEvent.wake : ILEvent Submission Final) s
                  = { s with
                      lastSubmission := none
                      consumed := s.consumed ++ [x] } := by
                simp [ILstep, h1, h2, hls]
              rw [List.foldl_cons, hstep]
              exact ih _ hnf2 h1 h2

/-- Claim C3: delivering submissions `s1, ..., sn` (each consumed by a loop
wake) and then a finish signal invokes `onSubmission` exactly `n` times in
delivery order and ends the loop — including `n = 0` — while a trace with no
finish delivery can never make the loop return. -/
theorem iterativeLoop_submissions_then_finish {Submission Final : Type} :
    (∀ (ss : List Submission) (fv : Final),
      (ILrun (ILsubTrace ss ++ [ILEvent.finish fv, ILEvent.wake])).submissionCalls
        = ss ∧
      (ILrun (ILsubTrace ss ++ [ILEvent.finish fv, ILEvent.wake])).returned
        = true) ∧
    (∀ tr : List (ILEvent Submission Final),
      (∀ f, ILEvent.finish f ∉ tr) → (ILrun tr).returned = false) := by
  constructor
  · intro ss fv
    have key : ILrun ((ILsubTrace ss : List (ILEvent Submission Final)) ++
          [ILEvent.finish fv, ILEvent.wake])
        = { isDone := true, lastSubmission := none, submissionCalls := ss
            consumed := ss, returned := true } := by
      show (((ILsubTrace ss : List (ILEvent Submission Final)) ++
          [ILEvent.finish fv, ILEvent.wake]).foldl
          (fun s e => ILstep e s) ILinit) = _
      rw [List.foldl_append, IL_fold_sub ss (ILinit : ILState Submission) rfl rfl rfl]
      simp [ILstep, ILinit]
    rw [key]
    exact ⟨rfl, rfl⟩
  · intro tr h
    exact (IL_nofinish_aux tr ILinit h rfl rfl).2

/-- Witness for C3: a trace holding only a submission and a wake leaves the
loop running. -/
theorem iterativeLoop_submissions_then_finish_witness :
    (ILrun ([ILEvent.submit 1, ILEvent.wake] : List (ILEvent Nat Nat))).returned
      = false :=
  (@iterativeLoop_submissions_then_finish Nat Nat).2
    [ILEvent.submit 1, ILEvent.wake] (by intro f hf; simp at hf)

/-- Claim C10: the submission handler carries no done-flag guard: a
submission delivered even after finish has set the flag still overwrites the
pending slot and still logs an `onSubmission` call, although the loop exits
without consuming it — in contrast with the progress handler of the
Progress-and-final pattern, which drops deliveries once the flag is set. -/
theorem iterativeLoop_submission_handler_unguarded
    {Submission Final AResult Progress : Type} :
    (∀ (s : ILState Submission) (sub : Submission),
      s.isDone = true →
      (ILstep (ILEvent.submit sub : ILEvent Submission Final) s).lastSubmission
        = some sub ∧
      (ILstep (ILEvent.submit sub : ILEvent Submission Final) s).submissionCalls
        = s.submissionCalls ++ [sub]) ∧
    (∀ (fv : Final) (sub : Submission),
      (ILrun [ILEvent.finish fv, ILEvent.submit sub]).submissionCalls = [sub] ∧
      (ILrun [ILEvent.finish fv, ILEvent.submit sub]).lastSubmission = some sub ∧
      (ILrun [ILEvent.finish fv, ILEvent.submit sub]).isDone = true ∧
      (ILrun [ILEvent.finish fv, ILEvent.submit sub]).consumed = []) ∧
    (∀ (s : PRState AResult Progress Final) (p : Progress),
      s.isDone = true → PRstep (PREvent.progress p) s = s) :=
  ⟨fun s sub _ => ⟨rfl, rfl⟩, fun fv sub => ⟨rfl, rfl, rfl, rfl⟩,
   fun s p h => by simp [PRstep, h]⟩

/-- Witness for C10: a submission on a concrete finished loop state is still
stored and logged, while a progress delivery on a completed
progress-and-final state is dropped. -/
theorem iterativeLoop_submission_handler_unguarded_witness :
    ((ILstep (ILEvent.submit 5 : ILEvent Nat Nat)
        { isDone := true, lastSubmission := none, submissionCalls := [1]
          consumed := [1], returned := true }).lastSubmission = some 5 ∧
     (ILstep (ILEvent.submit 5 : ILEvent Nat Nat)
        { isDone := true, lastSubmission := none, submissionCalls := [1]
          consumed := [1], returned := true }).submissionCalls = [1] ++ [5]) ∧
    PRstep (PREvent.progress 8)
        ({ isDone := true, finalData := some 4, phase := PRPhase.returned,
           startedCalls := [], progressCalls := [] } : PRState Nat Nat Nat)
      = { isDone := true, finalData := some 4, phase := PRPhase.returned,
          startedCalls := [], progressCalls := [] } :=
  ⟨(@iterativeLoop_submission_handler_unguarded Nat Nat Nat Nat).1 _ 5 rfl,
   (@iterativeLoop_submission_handler_unguarded Nat Nat Nat Nat).2.2 _ 8 rfl⟩

end RequestHelpers
